import Mathlib

/-!
Verification of the utility module `utils.py` of the
`pytorch-3d-point-cloud-generation` repository.

The module is a collection of training utilities.  The one algorithmic
routine is `projection`, a nearest-neighbour lookup between two point sets
written with TensorFlow-style tensor primitives (`repeat`/tile, elementwise
subtraction with broadcasting, `reduce_sum`, `sqrt`, per-row `argmin`,
`gather_nd`).  We shallow-embed the point sets as dense rank-2 rational
matrices (a width together with a rectangular list of rows) and the tensor
primitives by their array semantics:

* elementwise subtraction of the two replicated tensors follows the usual
  broadcasting rule on the last axis: equal widths subtract pointwise and a
  width of 1 is broadcast, while any other width combination is a shape
  error (modelled as `ProjErr.DimensionMismatch`);
* the per-row `argmin` is the stable first-minimum left-to-right scan; on a
  row of width 0 (empty target with a non-empty source) the reduction is a
  runtime error (modelled as `ProjErr.EmptyTarget`);
* the square root is the exact real square root, so distances live in `ℝ`
  and the source-faithful `projection` applies `Real.sqrt` to the squared
  distance matrix before taking the row arg-min, exactly as the source
  computes `dist = sqrt(reduce_sum(diff**2))` and then `argmin(dist)`.

A second definition, `projectionSq`, follows the specification text instead:
it takes the row arg-min over the squared distances and keeps the squared
distance of the match (the specification then applies `sqrt` to that single
gathered value); the refinement theorem for claim C10 relates the two.

The configuration-driven constructors `make_optimizer` and
`make_lr_scheduler` and the checkpoint helper `save_best_model` are embedded
with their Python control flow: the substring membership test `a in b` on
strings, truthiness of the optional scheduler name, and the dangling-else
fallthrough that leaves a local variable unbound (modelled as
`PyError.UnboundLocalError`).  File writes are modelled by returning the
written path.
-/

namespace PCG3D

/-- A point is a row of rational coordinates. -/
abbrev Point := List ℚ

/-- Failures of the tensor pipeline inside `projection`: an incompatible
last-axis shape at the subtraction, or an empty reduction axis at the
per-row arg-min. -/
inductive ProjErr where
  | DimensionMismatch
  | EmptyTarget
deriving DecidableEq

/-- Python runtime errors surfaced by the utility functions. -/
inductive PyError where
  | UnboundLocalError
  | IndexError
deriving DecidableEq

/-- A dense rank-2 tensor: a list of rows, all of length `width`. -/
structure Tensor2 where
  width : ℕ
  rows : List Point
  rect : ∀ r ∈ rows, r.length = width

/-- Elementwise subtraction `t - s` of two rows under the broadcasting rule
for the last axis: equal lengths subtract pointwise, a length-1 operand is
broadcast.  Only called when the widths are compatible. -/
def bsub (t s : Point) : Point :=
  if t.length = s.length then List.zipWith (fun a b => a - b) t s
  else if s.length = 1 then t.map (fun a => a - s.headD 0)
  else s.map (fun b => t.headD 0 - b)

/-- `reduce_sum(v**2)`: the sum of the squares of a row, reduced over the
coordinate axis in index order. -/
def sqNorm (v : Point) : ℚ := (v.map (fun x => x ^ 2)).sum

/-- One row of the squared-distance matrix: the squared distances from the
source point `s` to each target point, in target order. -/
def sqDistRow (s : Point) (VtRows : List Point) : List ℚ :=
  VtRows.map (fun t => sqNorm (bsub t s))

/-- Stable first-minimum arg-min of a list: the index of the first
occurrence of the least element, `none` on the empty list.  This is the
left-to-right scan semantics of the numeric arg-min primitive. -/
def argminList {α : Type} [LinearOrder α] : List α → Option ℕ
  | [] => none
  | a :: as =>
    match argminList as with
    | none => some 0
    | some j => if a ≤ as.getD j a then some 0 else some (j + 1)

/-- One row of the distance matrix of the source:
`dist = sqrt(reduce_sum(diff**2))`, with the exact real square root. -/
noncomputable def distRow (s : Point) (VtRows : List Point) : List ℝ :=
  (sqDistRow s VtRows).map (fun (q : ℚ) => Real.sqrt (q : ℝ))

/-- The `idx` tensor of the source: for each source row, the first-minimum
arg-min of the square-rooted distance row. -/
noncomputable def projIdx (Vs Vt : Tensor2) : List ℕ :=
  Vs.rows.map (fun s => (argminList (distRow s Vt.rows)).getD 0)

/-- Source-faithful embedding of `projection(Vs, Vt)`: broadcastable shapes
are checked at the subtraction, the per-row arg-min of the square-rooted
distance matrix selects the match, and `gather_nd` reads the matched target
point and its distance. -/
noncomputable def projection (Vs Vt : Tensor2) :
    Except ProjErr (List Point × List ℝ) :=
  if Vs.width = Vt.width ∨ Vs.width = 1 ∨ Vt.width = 1 then
    if Vt.rows.isEmpty ∧ ¬ Vs.rows.isEmpty then .error .EmptyTarget
    else
      .ok
        (Vs.rows.map (fun s =>
          Vt.rows.getD ((argminList (distRow s Vt.rows)).getD 0) []),
         Vs.rows.map (fun s =>
          (distRow s Vt.rows).getD ((argminList (distRow s Vt.rows)).getD 0) 0))
  else .error .DimensionMismatch

/-- The specification text of the projector: identical pipeline, but the
row arg-min is taken over the squared distances and the squared distance of
the match is returned (the square root is applied afterwards, only to the
gathered value).  Claim C10 relates this to `projection`. -/
def projectionSq (Vs Vt : Tensor2) :
    Except ProjErr (List Point × List ℚ) :=
  if Vs.width = Vt.width ∨ Vs.width = 1 ∨ Vt.width = 1 then
    if Vt.rows.isEmpty ∧ ¬ Vs.rows.isEmpty then .error .EmptyTarget
    else
      .ok
        (Vs.rows.map (fun s =>
          Vt.rows.getD ((argminList (sqDistRow s Vt.rows)).getD 0) []),
         Vs.rows.map (fun s =>
          (sqDistRow s Vt.rows).getD ((argminList (sqDistRow s Vt.rows)).getD 0) 0))
  else .error .DimensionMismatch

/-- The Euclidean distance between two points of equal dimension: the real
square root of the sum of the squared coordinate differences. -/
noncomputable def euclDist (p q : Point) : ℝ :=
  Real.sqrt ((((List.zipWith (fun a b => a - b) p q).map (fun x => x ^ 2)).sum : ℚ) : ℝ)

/-- The Python string membership test `a in b`: `a` occurs as a contiguous
substring of `b` (the empty string is a substring of every string). -/
def pyIn (a b : String) : Bool :=
  b.toList.tails.any (fun t => a.toList.isPrefixOf t)

/-- Python `str.lower()`: lower-case each character (the configuration
names are ASCII). -/
def pyLower (s : String) : String := ⟨s.data.map Char.toLower⟩

/-- The configuration fields consumed by `make_optimizer`. -/
structure OptCfg where
  optimName : String
  lr : ℚ
  wd : ℚ
  trueWD : Option ℚ

/-- The optimizer objects `make_optimizer` can construct (learning rate and
the weight-decay argument passed to the constructor). -/
inductive Optimizer where
  | adam (lr wd : ℚ)
  | sgd (lr wd : ℚ)
deriving DecidableEq

/-- Embedding of `make_optimizer`: the branch on `cfg.trueWD`, the substring
dispatch `cfg.optim.lower() in adam` / `... in sgd`, and the
`UnboundLocalError` raised at `return opt` when neither branch binds `opt`.
The log string is elided. -/
def make_optimizer (cfg : OptCfg) : Except PyError Optimizer :=
  if cfg.trueWD.isSome then
    if pyIn (pyLower cfg.optimName) "adam" then .ok (.adam cfg.lr 0)
    else if pyIn (pyLower cfg.optimName) "sgd" then .ok (.sgd cfg.lr 0)
    else .error .UnboundLocalError
  else
    if pyIn (pyLower cfg.optimName) "adam" then .ok (.adam cfg.lr cfg.wd)
    else if pyIn (pyLower cfg.optimName) "sgd" then .ok (.sgd cfg.lr cfg.wd)
    else .error .UnboundLocalError

/-- The configuration fields consumed by `make_lr_scheduler`. -/
structure SchedCfg where
  lrSched : Option String
  lrStep : ℕ
  lrGamma : ℚ
  TMax : ℕ
  etaMin : ℚ

/-- The scheduler objects `make_lr_scheduler` can construct. -/
inductive Scheduler where
  | stepLR (stepSize : ℕ) (gamma : ℚ)
  | exponentialLR (gamma : ℚ)
  | cosineAnnealingLR (TMax : ℕ) (etaMin : ℚ)
deriving DecidableEq

/-- Embedding of `make_lr_scheduler`: `if not cfg.lrSched: return None`
(Python truthiness: an absent or empty string is falsy), then the substring
dispatch over `step`, `exponential`, `cosine`, and the
`UnboundLocalError` raised at `print(statement)` when no branch matches. -/
def make_lr_scheduler (cfg : SchedCfg) : Except PyError (Option Scheduler) :=
  match cfg.lrSched with
  | none => .ok none
  | some s =>
    if s = "" then .ok none
    else if pyIn (pyLower s) "step" then .ok (some (.stepLR cfg.lrStep cfg.lrGamma))
    else if pyIn (pyLower s) "exponential" then .ok (some (.exponentialLR cfg.lrGamma))
    else if pyIn (pyLower s) "cosine" then .ok (some (.cosineAnnealingLR cfg.TMax cfg.etaMin))
    else .error .UnboundLocalError

/-- Embedding of `save_best_model`: the `val_loss` column of the history
frame is the list, `tail(1).iloc[0]` is its last element (an `IndexError`
on an empty frame), `.min()` is the column minimum, and a successful write
of the weights snapshot is modelled by returning the written path. -/
def save_best_model (model_path : String) (val_loss : List ℚ) :
    Except PyError (Option String) :=
  match val_loss with
  | [] => .error .IndexError
  | h :: t =>
    if t.getLastD h ≤ t.foldl min h then .ok (some (model_path ++ "/best.pth"))
    else .ok none

/-- Concrete source set of the concrete scenario of the specification. -/
def VsA : Tensor2 := ⟨3, [[0, 0, 0], [5, 5, 5]], by decide⟩

/-- Concrete target set of the concrete scenario of the specification. -/
def VtA : Tensor2 := ⟨3, [[0, 0, 1], [1, 1, 1], [10, 10, 10]], by decide⟩

/-- Single-point source set of the tie scenario. -/
def tieVs : Tensor2 := ⟨3, [[0, 0, 0]], by decide⟩

/-- Two equidistant target points of the tie scenario. -/
def tieVt : Tensor2 := ⟨3, [[1, 0, 0], [-1, 0, 0]], by decide⟩

/-- An empty source set of width 3. -/
def VsEmpty : Tensor2 := ⟨3, [], by decide⟩

/-- An empty target set of width 3. -/
def VtEmpty : Tensor2 := ⟨3, [], by decide⟩

/-- A one-dimensional single-point source set, used to exhibit broadcasting. -/
def VsB : Tensor2 := ⟨1, [[0]], by decide⟩

/-- A three-dimensional single-point target set for the broadcasting input. -/
def VtB : Tensor2 := ⟨3, [[3, 4, 0]], by decide⟩

/-- A two-dimensional source set, incompatible with width 3. -/
def VsC : Tensor2 := ⟨2, [[0, 0]], by decide⟩

/-! ### Helper lemmas about list indexing -/

theorem getD_lt {α : Type} (l : List α) (n : ℕ) (d : α) (h : n < l.length) :
    l.getD n d = l[n] := by
  simp [List.getD_eq_getElem?_getD, List.getElem?_eq_getElem h]

theorem getD_ge {α : Type} (l : List α) (n : ℕ) (d : α) (h : l.length ≤ n) :
    l.getD n d = d := by
  simp [List.getD_eq_getElem?_getD, List.getElem?_eq_none h]

theorem getD_default_swap {α : Type} (l : List α) (n : ℕ) (d e : α)
    (h : n < l.length) : l.getD n d = l.getD n e := by
  rw [getD_lt l n d h, getD_lt l n e h]

theorem getD_mem {α : Type} (l : List α) (n : ℕ) (d : α) (h : n < l.length) :
    l.getD n d ∈ l := by
  rw [getD_lt l n d h]; exact List.getElem_mem h

theorem getD_map_lt {α β : Type} (f : α → β) (l : List α) (i : ℕ) (d : β)
    (e : α) (h : i < l.length) : (l.map f).getD i d = f (l.getD i e) := by
  rw [getD_lt _ _ _ (by simpa using h), getD_lt _ _ _ h, List.getElem_map]

/-! ### Properties of the stable first-minimum arg-min -/

theorem argminList_eq_none_iff {α : Type} [LinearOrder α] (l : List α) :
    argminList l = none ↔ l = [] := by
  cases l with
  | nil => simp [argminList]
  | cons a as =>
    simp only [argminList]
    constructor
    · intro h
      exfalso
      cases heq : argminList as with
      | none => rw [heq] at h; exact Option.noConfusion h
      | some j =>
        rw [heq] at h
        dsimp at h
        split at h <;> exact Option.noConfusion h
    · intro h
      exact List.noConfusion h

theorem argminList_isSome {α : Type} [LinearOrder α] (l : List α) (h : l ≠ []) :
    ∃ j, argminList l = some j := by
  cases heq : argminList l with
  | none => exact absurd ((argminList_eq_none_iff l).mp heq) h
  | some j => exact ⟨j, rfl⟩

theorem argminList_lt_length {α : Type} [LinearOrder α] (l : List α) (j : ℕ)
    (hj : argminList l = some j) : j < l.length := by
  induction l generalizing j with
  | nil => exact Option.noConfusion hj
  | cons a as ih =>
    simp only [argminList] at hj
    cases heq : argminList as with
    | none =>
      rw [heq] at hj
      cases hj
      simp
    | some j2 =>
      rw [heq] at hj
      dsimp at hj
      split at hj
      · cases hj; simp
      · cases hj
        have := ih j2 heq
        simpa using Nat.succ_lt_succ this

theorem argminList_le {α : Type} [LinearOrder α] (l : List α) (j : ℕ)
    (hj : argminList l = some j) (d : α) (k : ℕ) (hk : k < l.length) :
    l.getD j d ≤ l.getD k d := by
  induction l generalizing j k with
  | nil => exact Option.noConfusion hj
  | cons a as ih =>
    simp only [argminList] at hj
    cases heq : argminList as with
    | none =>
      have has : as = [] := (argminList_eq_none_iff as).mp heq
      rw [heq] at hj
      cases hj
      subst has
      have hk0 : k = 0 := by simpa using hk
      subst hk0
      simp
    | some j2 =>
      rw [heq] at hj
      dsimp at hj
      have hj2len : j2 < as.length := argminList_lt_length as j2 heq
      split at hj
      · rename_i hle
        cases hj
        cases k with
        | zero => simp
        | succ k2 =>
          have hk2 : k2 < as.length := by simpa using hk
          have h1 : a ≤ as.getD j2 d := by
            calc a ≤ as.getD j2 a := hle
            _ = as.getD j2 d := getD_default_swap as j2 a d hj2len
          calc (a :: as).getD 0 d = a := by simp
          _ ≤ as.getD j2 d := h1
          _ ≤ as.getD k2 d := ih j2 heq k2 hk2
          _ = (a :: as).getD (k2 + 1) d := by simp
      · rename_i hgt
        cases hj
        have hlt : as.getD j2 d < a := by
          have := lt_of_not_le hgt
          calc as.getD j2 d = as.getD j2 a := getD_default_swap as j2 d a hj2len
          _ < a := this
        cases k with
        | zero => simpa using le_of_lt hlt
        | succ k2 =>
          have hk2 : k2 < as.length := by simpa using hk
          simpa using ih j2 heq k2 hk2

theorem argminList_first {α : Type} [LinearOrder α] (l : List α) (j : ℕ)
    (hj : argminList l = some j) (d : α) (k : ℕ) (hk : k < j) :
    l.getD j d < l.getD k d := by
  induction l generalizing j k with
  | nil => exact Option.noConfusion hj
  | cons a as ih =>
    simp only [argminList] at hj
    cases heq : argminList as with
    | none =>
      rw [heq] at hj
      cases hj
      exact absurd hk (Nat.not_lt_zero k)
    | some j2 =>
      rw [heq] at hj
      dsimp at hj
      have hj2len : j2 < as.length := argminList_lt_length as j2 heq
      split at hj
      · cases hj
        exact absurd hk (Nat.not_lt_zero k)
      · rename_i hgt
        cases hj
        have hlt : as.getD j2 d < a := by
          have := lt_of_not_le hgt
          calc as.getD j2 d = as.getD j2 a := getD_default_swap as j2 d a hj2len
          _ < a := this
        cases k with
        | zero => simpa using hlt
        | succ k2 =>
          have hk2 : k2 < j2 := by omega
          simpa using ih j2 heq k2 hk2

/-! ### Nonnegativity of squared distances -/

theorem sqNorm_nonneg (v : Point) : 0 ≤ sqNorm v := by
  unfold sqNorm
  apply List.sum_nonneg
  intro x hx
  obtain ⟨y, _, rfl⟩ := List.mem_map.mp hx
  positivity

theorem sqDistRow_nonneg (s : Point) (VtRows : List Point) :
    ∀ x ∈ sqDistRow s VtRows, 0 ≤ x := by
  intro x hx
  obtain ⟨t, _, rfl⟩ := List.mem_map.mp hx
  exact sqNorm_nonneg (bsub t s)

/-! ### The square root commutes with the stable arg-min -/

theorem argminList_map_sqrt (l : List ℚ) (hl : ∀ x ∈ l, 0 ≤ x) :
    argminList (l.map (fun (q : ℚ) => Real.sqrt (q : ℝ))) = argminList l := by
  induction l with
  | nil => rfl
  | cons a as ih =>
    have ha : 0 ≤ a := hl a (by simp)
    have has : ∀ x ∈ as, 0 ≤ x := fun x hx => hl x (by simp [hx])
    simp only [List.map_cons, argminList, ih has]
    cases heq : argminList as with
    | none => rfl
    | some j =>
      have hjlen : j < as.length := argminList_lt_length as j heq
      have hjlen2 : j < (as.map (fun (q : ℚ) => Real.sqrt (q : ℝ))).length := by
        simpa using hjlen
      have hget : (as.map (fun (q : ℚ) => Real.sqrt (q : ℝ))).getD j (Real.sqrt (a : ℝ)) =
          Real.sqrt ((as.getD j a : ℚ) : ℝ) := by
        rw [getD_lt _ _ _ hjlen2, getD_lt _ _ _ hjlen]
        simp
      have hmem : as.getD j a ∈ as := getD_mem as j a hjlen
      have hnn : (0 : ℝ) ≤ ((as.getD j a : ℚ) : ℝ) := by
        exact_mod_cast has _ hmem
      have hcond : (Real.sqrt (a : ℝ) ≤ Real.sqrt ((as.getD j a : ℚ) : ℝ)) ↔
          a ≤ as.getD j a := by
        rw [Real.sqrt_le_sqrt_iff hnn]
        exact_mod_cast Iff.rfl
      dsimp only
      rw [hget]
      simp only [hcond]

/-- The distance row is the square-rooted squared-distance row, also through
an out-of-range default read. -/
theorem distRow_getD (s : Point) (VtRows : List Point) (j : ℕ) :
    (distRow s VtRows).getD j 0 =
      Real.sqrt (((sqDistRow s VtRows).getD j 0 : ℚ) : ℝ) := by
  by_cases h : j < (sqDistRow s VtRows).length
  · have h2 : j < (distRow s VtRows).length := by
      simpa [distRow] using h
    rw [getD_lt _ _ _ h2, getD_lt _ _ _ h]
    simp [distRow]
  · push_neg at h
    rw [getD_ge _ _ _ (by simpa [distRow] using h), getD_ge _ _ _ h]
    simp

/-- The row arg-min over the square-rooted distances equals the row arg-min
over the squared distances. -/
theorem argmin_distRow_eq (s : Point) (VtRows : List Point) :
    argminList (distRow s VtRows) = argminList (sqDistRow s VtRows) := by
  unfold distRow
  exact argminList_map_sqrt (sqDistRow s VtRows) (sqDistRow_nonneg s VtRows)

/-! ### The bridge between the source pipeline and the squared pipeline -/

theorem projection_eq_map_sqrt (Vs Vt : Tensor2) :
    projection Vs Vt =
      Except.map (fun r => (r.1, r.2.map (fun (q : ℚ) => Real.sqrt (q : ℝ))))
        (projectionSq Vs Vt) := by
  unfold projection projectionSq
  by_cases h1 : Vs.width = Vt.width ∨ Vs.width = 1 ∨ Vt.width = 1
  · rw [if_pos h1, if_pos h1]
    by_cases h2 : Vt.rows.isEmpty ∧ ¬ Vs.rows.isEmpty
    · rw [if_pos h2, if_pos h2]; rfl
    · rw [if_neg h2, if_neg h2]
      simp only [Except.map]
      congr 1
      rw [Prod.mk.injEq]
      refine ⟨?_, ?_⟩
      · apply List.map_congr_left
        intro s _
        rw [argmin_distRow_eq]
      · rw [List.map_map]
        apply List.map_congr_left
        intro s _
        simp only [Function.comp]
        rw [argmin_distRow_eq, distRow_getD]
  · rw [if_neg h1, if_neg h1]; rfl

/-! ### Geometry: the gathered squared distance is the Euclidean distance -/

theorem zip_sub_sq_symm (p q : List ℚ) :
    ((List.zipWith (fun a b => a - b) p q).map (fun x => x ^ 2)).sum =
      ((List.zipWith (fun a b => a - b) q p).map (fun x => x ^ 2)).sum := by
  induction p generalizing q with
  | nil => simp
  | cons a p2 ih =>
    cases q with
    | nil => simp
    | cons b q2 =>
      simp only [List.zipWith_cons_cons, List.map_cons, List.sum_cons, ih q2]
      have : (a - b) ^ 2 = (b - a) ^ 2 := by ring
      rw [this]

theorem sqrt_sqNorm_bsub_eq_euclDist (s t : Point) (hlen : t.length = s.length) :
    Real.sqrt ((sqNorm (bsub t s) : ℚ) : ℝ) = euclDist s t := by
  unfold euclDist bsub sqNorm
  rw [if_pos hlen]
  congr 2
  exact_mod_cast zip_sub_sq_symm t s

/-! ### Folded minimum of a history column -/

theorem le_foldl_min_iff (a h : ℚ) (t : List ℚ) :
    a ≤ t.foldl min h ↔ a ≤ h ∧ ∀ x ∈ t, a ≤ x := by
  induction t generalizing h with
  | nil => simp
  | cons b t2 ih =>
    simp only [List.foldl_cons, ih (min h b), le_min_iff, List.forall_mem_cons]
    tauto

/-- The selected target index for one source row, at the rational level. -/
theorem projection_row_facts (Vs Vt : Tensor2)
    (ht : Vt.rows ≠ []) (i : ℕ) :
    ∃ j, argminList (sqDistRow (Vs.rows.getD i []) Vt.rows) = some j ∧
      j < Vt.rows.length ∧
      (argminList (distRow (Vs.rows.getD i []) Vt.rows)).getD 0 = j := by
  have hrow_ne : sqDistRow (Vs.rows.getD i []) Vt.rows ≠ [] := by
    simp [sqDistRow, ht]
  obtain ⟨j, hj⟩ := argminList_isSome _ hrow_ne
  refine ⟨j, hj, ?_, ?_⟩
  · have := argminList_lt_length _ _ hj
    simpa [sqDistRow] using this
  · rw [argmin_distRow_eq, hj]
    rfl

/-! ### Claim theorems -/

/-- C1: for every non-empty source set and non-empty target set of matching
dimension, `projection` returns for each index a matched point that belongs
to the target set, with the reported distance equal to the Euclidean
distance from the source point to its match, and less than or equal to the
Euclidean distance from the source point to every target point. -/
theorem projection_nearest (Vs Vt : Tensor2) (hw : Vs.width = Vt.width)
    (hs : Vs.rows ≠ []) (ht : Vt.rows ≠ []) :
    ∃ proj minDist, projection Vs Vt = .ok (proj, minDist) ∧
      proj.length = Vs.rows.length ∧ minDist.length = Vs.rows.length ∧
      ∀ i, i < Vs.rows.length →
        proj.getD i [] ∈ Vt.rows ∧
        minDist.getD i 0 = euclDist (Vs.rows.getD i []) (proj.getD i []) ∧
        ∀ t ∈ Vt.rows, minDist.getD i 0 ≤ euclDist (Vs.rows.getD i []) t := by
  have hcomp : Vs.width = Vt.width ∨ Vs.width = 1 ∨ Vt.width = 1 := Or.inl hw
  have hne : ¬ (Vt.rows.isEmpty ∧ ¬ Vs.rows.isEmpty) := by
    simp [ht]
  refine ⟨Vs.rows.map (fun s =>
      Vt.rows.getD ((argminList (distRow s Vt.rows)).getD 0) []),
    Vs.rows.map (fun s =>
      (distRow s Vt.rows).getD ((argminList (distRow s Vt.rows)).getD 0) 0),
    ?_, by simp, by simp, ?_⟩
  · unfold projection
    rw [if_pos hcomp, if_neg hne]
  · intro i hi
    obtain ⟨j, hj, hjlen, hidx⟩ := projection_row_facts Vs Vt ht i
    have hsmem : Vs.rows.getD i [] ∈ Vs.rows := getD_mem _ _ _ hi
    have hslen : (Vs.rows.getD i []).length = Vs.width := Vs.rect _ hsmem
    have hrowlen : Vt.rows.length = (sqDistRow (Vs.rows.getD i []) Vt.rows).length := by
      simp [sqDistRow]
    have hproj : (Vs.rows.map (fun s =>
        Vt.rows.getD ((argminList (distRow s Vt.rows)).getD 0) [])).getD i [] =
        Vt.rows.getD j [] := by
      rw [getD_map_lt _ _ _ _ ([] : Point) hi, hidx]
    have hdist : (Vs.rows.map (fun s =>
        (distRow s Vt.rows).getD ((argminList (distRow s Vt.rows)).getD 0) 0)).getD i 0 =
        Real.sqrt (((sqDistRow (Vs.rows.getD i []) Vt.rows).getD j 0 : ℚ) : ℝ) := by
      rw [getD_map_lt _ _ _ _ ([] : Point) hi, hidx, distRow_getD]
    have hsqj : (sqDistRow (Vs.rows.getD i []) Vt.rows).getD j 0 =
        sqNorm (bsub (Vt.rows.getD j []) (Vs.rows.getD i [])) := by
      unfold sqDistRow
      rw [getD_map_lt _ _ _ _ ([] : Point) hjlen]
    have htlen : ∀ t ∈ Vt.rows, t.length = (Vs.rows.getD i []).length := by
      intro t htm
      rw [Vt.rect t htm, hslen, hw]
    refine ⟨?_, ?_, ?_⟩
    · rw [hproj]
      exact getD_mem _ _ _ hjlen
    · rw [hproj, hdist, hsqj,
        sqrt_sqNorm_bsub_eq_euclDist _ _ (htlen _ (getD_mem _ _ _ hjlen))]
    · intro t htm
      obtain ⟨k, hk, rfl⟩ := List.mem_iff_getElem.mp htm
      have hkrow : k < (sqDistRow (Vs.rows.getD i []) Vt.rows).length := by
        rw [← hrowlen]; exact hk
      have hle : (sqDistRow (Vs.rows.getD i []) Vt.rows).getD j 0 ≤
          (sqDistRow (Vs.rows.getD i []) Vt.rows).getD k 0 :=
        argminList_le _ _ hj 0 k hkrow
      have hsqk : (sqDistRow (Vs.rows.getD i []) Vt.rows).getD k 0 =
          sqNorm (bsub (Vt.rows.getD k []) (Vs.rows.getD i [])) := by
        unfold sqDistRow
        rw [getD_map_lt _ _ _ _ ([] : Point) hk]
      have hgetk : Vt.rows.getD k [] = Vt.rows[k] := getD_lt _ _ _ hk
      rw [hdist, hsqj]
      calc Real.sqrt ((sqNorm (bsub (Vt.rows.getD j []) (Vs.rows.getD i [])) : ℚ) : ℝ)
          ≤ Real.sqrt ((sqNorm (bsub (Vt.rows.getD k []) (Vs.rows.getD i [])) : ℚ) : ℝ) := by
            apply Real.sqrt_le_sqrt
            rw [← hsqj, ← hsqk]
            exact_mod_cast hle
        _ = euclDist (Vs.rows.getD i []) (Vt.rows.getD k []) :=
            sqrt_sqNorm_bsub_eq_euclDist _ _ (htlen _ (getD_mem _ _ _ hk))
        _ = euclDist (Vs.rows.getD i []) Vt.rows[k] := by rw [hgetk]

/-- Witness for C1 at the concrete scenario of the specification. -/
theorem projection_nearest_witness :
    VsA.width = VtA.width ∧ VsA.rows ≠ [] ∧ VtA.rows ≠ [] ∧
    ∃ proj minDist, projection VsA VtA = .ok (proj, minDist) ∧
      proj.length = VsA.rows.length ∧ minDist.length = VsA.rows.length ∧
      ∀ i, i < VsA.rows.length →
        proj.getD i [] ∈ VtA.rows ∧
        minDist.getD i 0 = euclDist (VsA.rows.getD i []) (proj.getD i []) ∧
        ∀ t ∈ VtA.rows, minDist.getD i 0 ≤ euclDist (VsA.rows.getD i []) t :=
  ⟨rfl, by decide, by decide,
    projection_nearest VsA VtA rfl (by decide) (by decide)⟩

/-- Evaluation of the squared pipeline on the tie scenario. -/
theorem projectionSq_tie : projectionSq tieVs tieVt = .ok ([[1, 0, 0]], [1]) := by
  simp [projectionSq, tieVs, tieVt, sqDistRow, sqNorm, bsub, argminList]

/-- The squared distance row entry at any index is nonnegative, also through
the default. -/
theorem sqDistRow_getD_nonneg (s : Point) (VtRows : List Point) (j : ℕ) :
    0 ≤ (sqDistRow s VtRows).getD j 0 := by
  by_cases h : j < (sqDistRow s VtRows).length
  · exact sqDistRow_nonneg _ _ _ (getD_mem _ _ _ h)
  · rw [getD_ge _ _ _ (le_of_not_lt h)]

/-- C2: the arg-min is a stable first-minimum left-to-right scan: the index
selected for each source row points into the target set and every target
point with a strictly smaller index is strictly farther away; and on the
tie scenario with two equidistant targets the lowest target index wins. -/
theorem projection_tiebreak :
    (∀ (Vs Vt : Tensor2), Vs.width = Vt.width → Vt.rows ≠ [] →
      ∀ i, i < Vs.rows.length →
        (projIdx Vs Vt).getD i 0 < Vt.rows.length ∧
        ∀ k, k < (projIdx Vs Vt).getD i 0 →
          euclDist (Vs.rows.getD i []) (Vt.rows.getD ((projIdx Vs Vt).getD i 0) []) <
            euclDist (Vs.rows.getD i []) (Vt.rows.getD k [])) ∧
    projection tieVs tieVt = .ok ([[1, 0, 0]], [(1 : ℝ)]) := by
  constructor
  · intro Vs Vt hw ht i hi
    obtain ⟨j, hj, hjlen, hidx⟩ := projection_row_facts Vs Vt ht i
    have hpidx : (projIdx Vs Vt).getD i 0 = j := by
      unfold projIdx
      rw [getD_map_lt _ _ _ _ ([] : Point) hi, hidx]
    have hsmem : Vs.rows.getD i [] ∈ Vs.rows := getD_mem _ _ _ hi
    have hslen : (Vs.rows.getD i []).length = Vs.width := Vs.rect _ hsmem
    have htlen : ∀ t ∈ Vt.rows, t.length = (Vs.rows.getD i []).length := by
      intro t htm
      rw [Vt.rect t htm, hslen, hw]
    refine ⟨by rw [hpidx]; exact hjlen, ?_⟩
    intro k hk
    rw [hpidx] at hk ⊢
    have hkvt : k < Vt.rows.length := Nat.lt_trans hk hjlen
    have hkrow : k < (sqDistRow (Vs.rows.getD i []) Vt.rows).length := by
      simpa [sqDistRow] using hkvt
    have hsqj : (sqDistRow (Vs.rows.getD i []) Vt.rows).getD j 0 =
        sqNorm (bsub (Vt.rows.getD j []) (Vs.rows.getD i [])) := by
      unfold sqDistRow
      rw [getD_map_lt _ _ _ _ ([] : Point) hjlen]
    have hsqk : (sqDistRow (Vs.rows.getD i []) Vt.rows).getD k 0 =
        sqNorm (bsub (Vt.rows.getD k []) (Vs.rows.getD i [])) := by
      unfold sqDistRow
      rw [getD_map_lt _ _ _ _ ([] : Point) hkvt]
    have hlt : (sqDistRow (Vs.rows.getD i []) Vt.rows).getD j 0 <
        (sqDistRow (Vs.rows.getD i []) Vt.rows).getD k 0 :=
      argminList_first _ _ hj 0 k hk
    have h0 : 0 ≤ (sqDistRow (Vs.rows.getD i []) Vt.rows).getD j 0 :=
      sqDistRow_getD_nonneg _ _ _
    rw [← sqrt_sqNorm_bsub_eq_euclDist _ _ (htlen _ (getD_mem _ _ _ hjlen)),
      ← sqrt_sqNorm_bsub_eq_euclDist _ _ (htlen _ (getD_mem _ _ _ hkvt)),
      ← hsqj, ← hsqk]
    exact Real.sqrt_lt_sqrt (by exact_mod_cast h0) (by exact_mod_cast hlt)
  · rw [projection_eq_map_sqrt, projectionSq_tie]
    simp [Except.map, Real.sqrt_one]

/-- Witness for C2 at the tie scenario. -/
theorem projection_tiebreak_witness :
    tieVs.width = tieVt.width ∧ tieVt.rows ≠ [] ∧ 0 < tieVs.rows.length ∧
    ((projIdx tieVs tieVt).getD 0 0 < tieVt.rows.length ∧
      ∀ k, k < (projIdx tieVs tieVt).getD 0 0 →
        euclDist (tieVs.rows.getD 0 []) (tieVt.rows.getD ((projIdx tieVs tieVt).getD 0 0) []) <
          euclDist (tieVs.rows.getD 0 []) (tieVt.rows.getD k [])) :=
  ⟨rfl, by decide, by decide,
    projection_tiebreak.1 tieVs tieVt rfl (by decide) 0 (by decide)⟩

/-- C3: for every source set (including the empty one) and non-empty target
set of matching dimension, `projection` succeeds and both outputs have the
length of the source; an empty source yields empty outputs. -/
theorem projection_total_lengths (Vs Vt : Tensor2) (hw : Vs.width = Vt.width)
    (ht : Vt.rows ≠ []) :
    (∃ proj minDist, projection Vs Vt = .ok (proj, minDist) ∧
      proj.length = Vs.rows.length ∧ minDist.length = Vs.rows.length) ∧
    (Vs.rows = [] → projection Vs Vt = .ok ([], [])) := by
  have hcomp : Vs.width = Vt.width ∨ Vs.width = 1 ∨ Vt.width = 1 := Or.inl hw
  have hne : ¬ (Vt.rows.isEmpty ∧ ¬ Vs.rows.isEmpty) := by
    simp [ht]
  constructor
  · refine ⟨Vs.rows.map (fun s =>
        Vt.rows.getD ((argminList (distRow s Vt.rows)).getD 0) []),
      Vs.rows.map (fun s =>
        (distRow s Vt.rows).getD ((argminList (distRow s Vt.rows)).getD 0) 0),
      ?_, by simp, by simp⟩
    unfold projection
    rw [if_pos hcomp, if_neg hne]
  · intro hsrc
    unfold projection
    rw [if_pos hcomp, if_neg hne, hsrc]
    rfl

/-- Witness for C3, in particular at an empty source set. -/
theorem projection_total_lengths_witness :
    VsEmpty.width = VtA.width ∧ VtA.rows ≠ [] ∧
    ((∃ proj minDist, projection VsEmpty VtA = .ok (proj, minDist) ∧
      proj.length = VsEmpty.rows.length ∧ minDist.length = VsEmpty.rows.length) ∧
    (VsEmpty.rows = [] → projection VsEmpty VtA = .ok ([], []))) :=
  ⟨rfl, by decide, projection_total_lengths VsEmpty VtA rfl (by decide)⟩

/-- C4: for every non-empty source set, an empty target set of the same
dimension makes `projection` fail with `EmptyTarget` (the reduction over the
empty target axis fails before any output is produced). -/
theorem projection_empty_target (Vs Vt : Tensor2) (hw : Vs.width = Vt.width)
    (hs : Vs.rows ≠ []) (ht : Vt.rows = []) :
    projection Vs Vt = .error .EmptyTarget := by
  have hcomp : Vs.width = Vt.width ∨ Vs.width = 1 ∨ Vt.width = 1 := Or.inl hw
  unfold projection
  rw [if_pos hcomp, if_pos (by simp [ht, hs])]

/-- Witness for C4. -/
theorem projection_empty_target_witness :
    VsA.width = VtEmpty.width ∧ VsA.rows ≠ [] ∧ VtEmpty.rows = [] ∧
    projection VsA VtEmpty = .error .EmptyTarget :=
  ⟨rfl, by decide, by decide,
    projection_empty_target VsA VtEmpty rfl (by decide) (by decide)⟩

/-- Evaluation of the squared pipeline on the broadcasting inputs: a width-1
source point against a width-3 target point broadcasts instead of failing. -/
theorem projectionSq_broadcast : projectionSq VsB VtB = .ok ([[3, 4, 0]], [25]) := by
  simp [projectionSq, VsB, VtB, sqDistRow, sqNorm, bsub, argminList]
  norm_num

/-- Counterexample to C5: the source and target points differ in
dimensionality (1 versus 3), yet `projection` does not fail with
`DimensionMismatch`: the subtraction broadcasts the width-1 operand and a
full result is returned. -/
theorem projection_dim_mismatch_cex :
    VsB.width ≠ VtB.width ∧
    projection VsB VtB = .ok ([[3, 4, 0]], [(5 : ℝ)]) ∧
    projection VsB VtB ≠ .error .DimensionMismatch := by
  have h5 : Real.sqrt (((25 : ℚ) : ℝ)) = 5 := by
    rw [show (((25 : ℚ) : ℝ)) = 5 ^ 2 by norm_num]
    exact Real.sqrt_sq (by norm_num)
  have hok : projection VsB VtB = .ok ([[3, 4, 0]], [(5 : ℝ)]) := by
    rw [projection_eq_map_sqrt, projectionSq_broadcast]
    simp only [Except.map, List.map_cons, List.map_nil, h5]
  exact ⟨by decide, hok, by rw [hok]; exact fun h => Except.noConfusion h⟩

/-- C5 (amended): when the source and target widths differ and neither is 1,
`projection` fails immediately with `DimensionMismatch`; a width of 1 on
either side is instead broadcast by the subtraction. -/
theorem projection_dim_mismatch (Vs Vt : Tensor2) (h1 : Vs.width ≠ Vt.width)
    (h2 : Vs.width ≠ 1) (h3 : Vt.width ≠ 1) :
    projection Vs Vt = .error .DimensionMismatch := by
  unfold projection
  rw [if_neg (by simp [h1, h2, h3])]

/-- Witness for the amended C5. -/
theorem projection_dim_mismatch_witness :
    VsC.width ≠ VtA.width ∧ VsC.width ≠ 1 ∧ VtA.width ≠ 1 ∧
    projection VsC VtA = .error .DimensionMismatch :=
  ⟨by decide, by decide, by decide,
    projection_dim_mismatch VsC VtA (by decide) (by decide) (by decide)⟩

/-- C6: `projection` is a pure function of its two inputs: two runs on
identical inputs produce identical outputs (the embedding has no state, so
determinism is definitional). -/
theorem projection_deterministic (Vs1 Vt1 Vs2 Vt2 : Tensor2)
    (hs : Vs1 = Vs2) (ht : Vt1 = Vt2) :
    projection Vs1 Vt1 = projection Vs2 Vt2 := by
  rw [hs, ht]

/-- Witness for C6. -/
theorem projection_deterministic_witness :
    VsA = VsA ∧ VtA = VtA ∧ projection VsA VtA = projection VsA VtA :=
  ⟨rfl, rfl, projection_deterministic VsA VtA VsA VtA rfl rfl⟩

/-- C7: an optimizer name whose lower-casing the substring dispatch accepts
as neither adam nor sgd leaves `opt` unbound, so `make_optimizer` fails with
`UnboundLocalError`; likewise an unrecognized non-empty scheduler name
leaves the scheduler unbound in `make_lr_scheduler`. -/
theorem unrecognized_name_unbound :
    (∀ cfg : OptCfg, pyIn (pyLower cfg.optimName) "adam" = false →
      pyIn (pyLower cfg.optimName) "sgd" = false →
      make_optimizer cfg = .error .UnboundLocalError) ∧
    (∀ (cfg : SchedCfg) (s : String), cfg.lrSched = some s → s ≠ "" →
      pyIn (pyLower s) "step" = false →
      pyIn (pyLower s) "exponential" = false →
      pyIn (pyLower s) "cosine" = false →
      make_lr_scheduler cfg = .error .UnboundLocalError) := by
  constructor
  · intro cfg h1 h2
    unfold make_optimizer
    by_cases htw : cfg.trueWD.isSome
    · rw [if_pos htw, if_neg (by simp [h1]), if_neg (by simp [h2])]
    · rw [if_neg htw, if_neg (by simp [h1]), if_neg (by simp [h2])]
  · intro cfg s hs hne h1 h2 h3
    obtain ⟨ls, a, b, c, d⟩ := cfg
    dsimp at hs
    subst hs
    dsimp only [make_lr_scheduler]
    rw [if_neg hne, if_neg (by simp [h1]), if_neg (by simp [h2]),
      if_neg (by simp [h3])]

/-- Witness for C7 at the names rmsprop and plateau. -/
theorem unrecognized_name_unbound_witness :
    (pyIn (pyLower "rmsprop") "adam" = false ∧
      pyIn (pyLower "rmsprop") "sgd" = false ∧
      make_optimizer ⟨"rmsprop", 1 / 100, 1 / 1000, none⟩ =
        .error .UnboundLocalError) ∧
    (("plateau" : String) ≠ "" ∧
      pyIn (pyLower "plateau") "step" = false ∧
      pyIn (pyLower "plateau") "exponential" = false ∧
      pyIn (pyLower "plateau") "cosine" = false ∧
      make_lr_scheduler ⟨some "plateau", 10, 1 / 2, 100, 0⟩ =
        .error .UnboundLocalError) :=
  ⟨⟨by decide, by decide,
      unrecognized_name_unbound.1 ⟨"rmsprop", 1 / 100, 1 / 1000, none⟩
        (by decide) (by decide)⟩,
    ⟨by decide, by decide, by decide, by decide,
      unrecognized_name_unbound.2 ⟨some "plateau", 10, 1 / 2, 100, 0⟩ "plateau"
        rfl (by decide) (by decide) (by decide) (by decide)⟩⟩

/-- Counterexample to C8: the recognized-set string none is truthy and is
not a substring of step, exponential or cosine, so no branch binds the
scheduler and `make_lr_scheduler` fails instead of returning no scheduler. -/
theorem make_lr_scheduler_none_cex :
    make_lr_scheduler ⟨some "none", 10, 1 / 2, 100, 0⟩ =
      .error .UnboundLocalError ∧
    make_lr_scheduler ⟨some "none", 10, 1 / 2, 100, 0⟩ ≠ .ok none := by
  have h : make_lr_scheduler ⟨some "none", 10, 1 / 2, 100, 0⟩ =
      .error .UnboundLocalError := rfl
  exact ⟨h, by rw [h]; exact fun hh => Except.noConfusion hh⟩

/-- C8 (amended): the strings step, exponential and cosine select `StepLR`,
`ExponentialLR` and `CosineAnnealingLR` respectively; the no-scheduler
outcome corresponds to an absent or empty configuration value, while the
literal string none matches no branch and fails with `UnboundLocalError`. -/
theorem make_lr_scheduler_recognized (st : ℕ) (g eM : ℚ) (TM : ℕ) :
    make_lr_scheduler ⟨some "step", st, g, TM, eM⟩ =
      .ok (some (.stepLR st g)) ∧
    make_lr_scheduler ⟨some "exponential", st, g, TM, eM⟩ =
      .ok (some (.exponentialLR g)) ∧
    make_lr_scheduler ⟨some "cosine", st, g, TM, eM⟩ =
      .ok (some (.cosineAnnealingLR TM eM)) ∧
    make_lr_scheduler ⟨none, st, g, TM, eM⟩ = .ok none ∧
    make_lr_scheduler ⟨some "", st, g, TM, eM⟩ = .ok none ∧
    make_lr_scheduler ⟨some "none", st, g, TM, eM⟩ =
      .error .UnboundLocalError :=
  ⟨rfl, rfl, rfl, rfl, rfl, rfl⟩

/-- Witness for the amended C8 at concrete scheduler parameters. -/
theorem make_lr_scheduler_recognized_witness :
    make_lr_scheduler ⟨some "step", 10, 1 / 2, 100, 0⟩ =
      .ok (some (.stepLR 10 (1 / 2))) ∧
    make_lr_scheduler ⟨some "exponential", 10, 1 / 2, 100, 0⟩ =
      .ok (some (.exponentialLR (1 / 2))) ∧
    make_lr_scheduler ⟨some "cosine", 10, 1 / 2, 100, 0⟩ =
      .ok (some (.cosineAnnealingLR 100 0)) ∧
    make_lr_scheduler ⟨none, 10, 1 / 2, 100, 0⟩ = .ok none ∧
    make_lr_scheduler ⟨some "", 10, 1 / 2, 100, 0⟩ = .ok none ∧
    make_lr_scheduler ⟨some "none", 10, 1 / 2, 100, 0⟩ =
      .error .UnboundLocalError :=
  make_lr_scheduler_recognized 10 (1 / 2) 0 100

/-- C9: `save_best_model` writes the weights snapshot best.pth exactly when
the most recent validation loss is less than or equal to every validation
loss in the history; otherwise nothing is written. -/
theorem save_best_model_iff (mp : String) (hist : List ℚ) (hne : hist ≠ []) :
    (save_best_model mp hist = .ok (some (mp ++ "/best.pth")) ↔
      ∀ x ∈ hist, hist.getLast hne ≤ x) ∧
    (¬ (∀ x ∈ hist, hist.getLast hne ≤ x) →
      save_best_model mp hist = .ok none) := by
  cases hist with
  | nil => exact absurd rfl hne
  | cons h t =>
    have hlast : (h :: t).getLast hne = t.getLastD h :=
      List.getLast_eq_getLastD h t hne
    have hiff : (∀ x ∈ h :: t, t.getLastD h ≤ x) ↔
        t.getLastD h ≤ t.foldl min h := by
      rw [List.forall_mem_cons, le_foldl_min_iff]
    rw [hlast]
    simp only [save_best_model]
    by_cases hcond : t.getLastD h ≤ t.foldl min h
    · rw [if_pos hcond]
      exact ⟨⟨fun _ => hiff.mpr hcond, fun _ => rfl⟩,
        fun hno => absurd (hiff.mpr hcond) hno⟩
    · rw [if_neg hcond]
      exact ⟨⟨fun hx => absurd hx (by simp),
        fun hall => absurd (hiff.mp hall) hcond⟩, fun _ => rfl⟩

/-- Witness for C9 on a history whose last entry is the running minimum. -/
theorem save_best_model_iff_witness :
    ([(3 : ℚ), 2] ≠ []) ∧
    ((save_best_model "models" [3, 2] = .ok (some ("models" ++ "/best.pth")) ↔
      ∀ x ∈ [(3 : ℚ), 2], [(3 : ℚ), 2].getLast (by decide) ≤ x) ∧
     (¬ (∀ x ∈ [(3 : ℚ), 2], [(3 : ℚ), 2].getLast (by decide) ≤ x) →
      save_best_model "models" [3, 2] = .ok none)) :=
  ⟨by decide, save_best_model_iff "models" [3, 2] (by decide)⟩

/-- C10: the source takes the row arg-min over the square-rooted distances;
under exact-real semantics the square root is strictly monotone on the
nonnegative squared distances, so the same index is selected as by the
squared-distance arg-min of the specification, and `projection` equals the
specification pipeline with the square root applied to the gathered squared
distance. -/
theorem projection_refines_sq_argmin :
    (∀ (s : Point) (VtRows : List Point),
      argminList (distRow s VtRows) = argminList (sqDistRow s VtRows)) ∧
    ∀ Vs Vt : Tensor2,
      projection Vs Vt =
        Except.map (fun r => (r.1, r.2.map (fun (q : ℚ) => Real.sqrt (q : ℝ))))
          (projectionSq Vs Vt) :=
  ⟨argmin_distRow_eq, projection_eq_map_sqrt⟩

/-- Witness for C10 at the tie scenario inputs. -/
theorem projection_refines_sq_argmin_witness :
    argminList (distRow [0, 0, 0] tieVt.rows) =
      argminList (sqDistRow [0, 0, 0] tieVt.rows) ∧
    projection tieVs tieVt =
      Except.map (fun r => (r.1, r.2.map (fun (q : ℚ) => Real.sqrt (q : ℝ))))
        (projectionSq tieVs tieVt) :=
  ⟨projection_refines_sq_argmin.1 [0, 0, 0] tieVt.rows,
    projection_refines_sq_argmin.2 tieVs tieVt⟩

end PCG3D
